import Mathlib

/-!
# TRBBFI — verification of the Brainfuck execution engine

Shallow embedding of the `BrainfuckInterpreter` class of `src/trbbfi.cpp`:
the memory tape (`std::vector<unsigned char>`, cells modelled as `Nat`
values reduced mod 256), the data pointer `memptr`, the instruction
pointer `codeptr`, the loop-return stack `loop_stack` (a `List Nat`, top
first, matching `std::stack`), and the instruction-dispatch loop of
`execute` as a fuel-indexed small-step interpreter.  Standard input and
output byte streams are threaded through the state as lists of byte
values.
-/

namespace Trbbfi

/-- Mutable part of the interpreter during a run: tape, data pointer,
instruction pointer, loop-return stack, plus the input/output byte
streams of the process. -/
structure State where
  memory : List Nat
  memptr : Nat
  codeptr : Nat
  stack : List Nat
  input : List Nat
  output : List Nat
deriving Repr, DecidableEq

/-- The engine object: the loaded (already filtered) program together
with the member state the C++ class keeps between calls. -/
structure Engine where
  code : List Char
  memory : List Nat
  memptr : Nat
  codeptr : Nat
  stack : List Nat
deriving Repr, DecidableEq

/-- Failure reasons of `execute`, one per `return false` site:
`UnmatchedBrackets` for the pre-pass validation failure (line 66),
`UnmatchedOpenBracket p` for the forward-scan failure of `[` at
position `p` (line 126), `UnmatchedCloseBracket p` for `]` with an
empty loop stack at position `p` (line 136), and
`MemoryLimitExceeded` for tape growth blocked at the 1,000,000-cell
cap (line 86). -/
inductive Reason where
  | UnmatchedBrackets : Reason
  | UnmatchedOpenBracket : Nat → Reason
  | UnmatchedCloseBracket : Nat → Reason
  | MemoryLimitExceeded : Reason
deriving Repr, DecidableEq

/-- Result of running the dispatch loop under a fuel bound. -/
inductive RunResult where
  | done : State → RunResult
  | failed : Reason → State → RunResult
  | outOfFuel : State → RunResult
deriving Repr, DecidableEq

/-- The eight-symbol instruction alphabet (`loadCode`'s filter). -/
def isInstr (c : Char) : Bool :=
  c == '>' || c == '<' || c == '+' || c == '-' ||
  c == '.' || c == ',' || c == '[' || c == ']'

/-- `loadCode`: filter the raw program text down to instruction
characters (lines 37–45). -/
def loadCode (text : List Char) : List Char := text.filter isInstr

/-- Contribution of one character to the bracket balance: the two `if`
statements of `validateBrackets` (lines 50–51) and of the forward scan
(lines 121–122). -/
def bdelta (c : Char) : Int := if c = '[' then 1 else if c = ']' then -1 else 0

/-- Loop of `validateBrackets` (lines 47–55): running balance, failing
as soon as it goes negative, checking zero at the end. -/
def vLoop : Int → List Char → Bool
  | b, [] => b == 0
  | b, c :: cs =>
    let b2 := b + bdelta c
    if b2 < 0 then false else vLoop b2 cs

/-- `validateBrackets` (lines 47–55). -/
def validateBrackets (code : List Char) : Bool := vLoop 0 code

/-- `reset` (lines 57–62): zero every cell (`std::fill`), zero both
pointers, drain the loop stack.  The loaded program is untouched. -/
def reset (e : Engine) : Engine :=
  { e with memory := e.memory.map (fun _ => 0), memptr := 0, codeptr := 0,
           stack := [] }

/-- Forward scan of `[` on a zero cell (lines 118–124): from `pos` with
running nesting balance `b`, advance while in range and the balance is
positive.  Returns the final position and balance. -/
def scan (code : List Char) (pos : Nat) (b : Int) : Nat × Int :=
  if h : pos < code.length ∧ 0 < b then
    scan code (pos + 1) (b + bdelta (code.getD pos ' '))
  else (pos, b)
termination_by code.length - pos
decreasing_by omega

/-- One iteration of the dispatch loop (lines 75–147) at a position
`st.codeptr < code.length`: perform the effect of the current
instruction and the `codeptr++` of line 146.  The error returns carry
the member state as it is at the `return false` statement. -/
def step (code : List Char) (st : State) : Except (Reason × State) State :=
  let c := code.getD st.codeptr ' '
  if c = '>' then
    if st.memory.length ≤ st.memptr + 1 then
      if 1000000 ≤ st.memory.length then
        .error (.MemoryLimitExceeded, { st with memptr := st.memptr + 1 })
      else
        .ok { st with
              memptr := st.memptr + 1,
              memory := st.memory ++
                List.replicate (min (st.memory.length * 2) 1000000 - st.memory.length) 0,
              codeptr := st.codeptr + 1 }
    else .ok { st with memptr := st.memptr + 1, codeptr := st.codeptr + 1 }
  else if c = '<' then
    .ok { st with memptr := if 0 < st.memptr then st.memptr - 1 else st.memptr,
                  codeptr := st.codeptr + 1 }
  else if c = '+' then
    .ok { st with
          memory := st.memory.set st.memptr ((st.memory.getD st.memptr 0 + 1) % 256),
          codeptr := st.codeptr + 1 }
  else if c = '-' then
    .ok { st with
          memory := st.memory.set st.memptr ((st.memory.getD st.memptr 0 + 255) % 256),
          codeptr := st.codeptr + 1 }
  else if c = '.' then
    .ok { st with output := st.output ++ [st.memory.getD st.memptr 0],
                  codeptr := st.codeptr + 1 }
  else if c = ',' then
    if st.input.isEmpty then
      .ok { st with memory := st.memory.set st.memptr 0,
                    codeptr := st.codeptr + 1 }
    else
      .ok { st with memory := st.memory.set st.memptr (st.input.headD 0 % 256),
                    input := st.input.tail, codeptr := st.codeptr + 1 }
  else if c = '[' then
    if st.memory.getD st.memptr 0 = 0 then
      let r := scan code (st.codeptr + 1) 1
      if 0 < r.2 then .error (.UnmatchedOpenBracket st.codeptr, st)
      else .ok { st with codeptr := r.1 }
    else .ok { st with stack := st.codeptr :: st.stack, codeptr := st.codeptr + 1 }
  else if c = ']' then
    if st.stack.isEmpty then .error (.UnmatchedCloseBracket st.codeptr, st)
    else if st.memory.getD st.memptr 0 ≠ 0 then
      .ok { st with codeptr := st.stack.headD 0 + 1 }
    else
      .ok { st with stack := st.stack.tail, codeptr := st.codeptr + 1 }
  else .ok { st with codeptr := st.codeptr + 1 }

/-- Fuel-indexed iteration of the dispatch loop's
`while (codeptr < code.size())`. -/
def run (code : List Char) : Nat → State → RunResult
  | 0, st => if st.codeptr < code.length then .outOfFuel st else .done st
  | fuel + 1, st =>
    if st.codeptr < code.length then
      match step code st with
      | .ok st' => run code fuel st'
      | .error (r, st') => .failed r st'
    else .done st

/-- The state `execute` builds before entering the dispatch loop
(lines 70–73): zero pointers, drained loop stack, zero-filled tape of
the engine's current length. -/
def initState (e : Engine) (input : List Nat) : State :=
  { memory := e.memory.map (fun _ => 0), memptr := 0, codeptr := 0,
    stack := [], input := input, output := [] }

/-- The member state at entry, as carried by the validation-failure
return (line 67), which happens before any of the resets of
lines 70–73. -/
def entryState (e : Engine) (input : List Nat) : State :=
  { memory := e.memory, memptr := e.memptr, codeptr := e.codeptr,
    stack := e.stack, input := input, output := [] }

/-- `execute` (lines 64–149): validate, reset the run state, iterate
the dispatch loop (under a fuel bound). -/
def execute (fuel : Nat) (e : Engine) (input : List Nat) : RunResult :=
  if validateBrackets e.code then run e.code fuel (initState e input)
  else .failed .UnmatchedBrackets (entryState e input)

/-- A fresh engine as built by the constructor (line 33) followed by
`loadCode prog`: 30,000 zero cells, zero pointers, empty stack. -/
def freshEngine (prog : List Char) : Engine :=
  { code := loadCode prog, memory := List.replicate 30000 0, memptr := 0,
    codeptr := 0, stack := [] }

/-- Final state carried by a `RunResult`, whichever way the run ended. -/
def RunResult.finalState : RunResult → State
  | .done st => st
  | .failed _ st => st
  | .outOfFuel st => st

/-- Whether a run ended by the instruction pointer reaching the end of
the program (the `return true` of line 148). -/
def RunResult.isDone : RunResult → Bool
  | .done _ => true
  | _ => false

/-! ## Equation lemmas: one per branch of the dispatch `switch` -/

theorem step_gt_nogrow (code : List Char) (st : State)
    (hc : code.getD st.codeptr ' ' = '>')
    (hlt : st.memptr + 1 < st.memory.length) :
    step code st = .ok { st with memptr := st.memptr + 1, codeptr := st.codeptr + 1 } := by
  unfold step
  rw [hc, if_pos rfl, if_neg (by omega)]

theorem step_gt_grow (code : List Char) (st : State)
    (hc : code.getD st.codeptr ' ' = '>')
    (hge : st.memory.length ≤ st.memptr + 1) (hcap : st.memory.length < 1000000) :
    step code st = .ok { st with
      memptr := st.memptr + 1,
      memory := st.memory ++
        List.replicate (min (st.memory.length * 2) 1000000 - st.memory.length) 0,
      codeptr := st.codeptr + 1 } := by
  unfold step
  rw [hc, if_pos rfl, if_pos hge, if_neg (by omega)]

theorem step_gt_fail (code : List Char) (st : State)
    (hc : code.getD st.codeptr ' ' = '>')
    (hge : st.memory.length ≤ st.memptr + 1) (hcap : 1000000 ≤ st.memory.length) :
    step code st = .error (.MemoryLimitExceeded, { st with memptr := st.memptr + 1 }) := by
  unfold step
  rw [hc, if_pos rfl, if_pos hge, if_pos hcap]

theorem step_lt (code : List Char) (st : State)
    (hc : code.getD st.codeptr ' ' = '<') :
    step code st = .ok { st with
      memptr := if 0 < st.memptr then st.memptr - 1 else st.memptr,
      codeptr := st.codeptr + 1 } := by
  unfold step
  rw [hc, if_neg (by decide), if_pos rfl]

theorem step_plus (code : List Char) (st : State)
    (hc : code.getD st.codeptr ' ' = '+') :
    step code st = .ok { st with
      memory := st.memory.set st.memptr ((st.memory.getD st.memptr 0 + 1) % 256),
      codeptr := st.codeptr + 1 } := by
  unfold step
  rw [hc, if_neg (by decide), if_neg (by decide), if_pos rfl]

theorem step_minus (code : List Char) (st : State)
    (hc : code.getD st.codeptr ' ' = '-') :
    step code st = .ok { st with
      memory := st.memory.set st.memptr ((st.memory.getD st.memptr 0 + 255) % 256),
      codeptr := st.codeptr + 1 } := by
  unfold step
  rw [hc, if_neg (by decide), if_neg (by decide), if_neg (by decide), if_pos rfl]

theorem step_dot (code : List Char) (st : State)
    (hc : code.getD st.codeptr ' ' = '.') :
    step code st = .ok { st with
      output := st.output ++ [st.memory.getD st.memptr 0],
      codeptr := st.codeptr + 1 } := by
  unfold step
  rw [hc, if_neg (by decide), if_neg (by decide), if_neg (by decide),
      if_neg (by decide), if_pos rfl]

theorem step_comma_nil (code : List Char) (st : State)
    (hc : code.getD st.codeptr ' ' = ',') (hi : st.input = []) :
    step code st = .ok { st with memory := st.memory.set st.memptr 0,
                                 codeptr := st.codeptr + 1 } := by
  unfold step
  rw [hc, if_neg (by decide), if_neg (by decide), if_neg (by decide),
      if_neg (by decide), if_neg (by decide), if_pos rfl, hi,
      if_pos List.isEmpty_nil]

theorem step_comma_cons (code : List Char) (st : State) (b : Nat) (rest : List Nat)
    (hc : code.getD st.codeptr ' ' = ',') (hi : st.input = b :: rest) :
    step code st = .ok { st with memory := st.memory.set st.memptr (b % 256),
                                 input := rest, codeptr := st.codeptr + 1 } := by
  unfold step
  rw [hc, if_neg (by decide), if_neg (by decide), if_neg (by decide),
      if_neg (by decide), if_neg (by decide), if_pos rfl, hi, if_neg (by simp)]
  rfl

theorem step_open_skip (code : List Char) (st : State)
    (hc : code.getD st.codeptr ' ' = '[') (hz : st.memory.getD st.memptr 0 = 0)
    (hb : (scan code (st.codeptr + 1) 1).2 ≤ 0) :
    step code st = .ok { st with codeptr := (scan code (st.codeptr + 1) 1).1 } := by
  unfold step
  rw [hc, if_neg (by decide), if_neg (by decide), if_neg (by decide),
      if_neg (by decide), if_neg (by decide), if_neg (by decide), if_pos rfl,
      if_pos hz, if_neg (by omega)]

theorem step_open_fail (code : List Char) (st : State)
    (hc : code.getD st.codeptr ' ' = '[') (hz : st.memory.getD st.memptr 0 = 0)
    (hb : 0 < (scan code (st.codeptr + 1) 1).2) :
    step code st = .error (.UnmatchedOpenBracket st.codeptr, st) := by
  unfold step
  rw [hc, if_neg (by decide), if_neg (by decide), if_neg (by decide),
      if_neg (by decide), if_neg (by decide), if_neg (by decide), if_pos rfl,
      if_pos hz, if_pos hb]

theorem step_open_push (code : List Char) (st : State)
    (hc : code.getD st.codeptr ' ' = '[') (hnz : st.memory.getD st.memptr 0 ≠ 0) :
    step code st = .ok { st with stack := st.codeptr :: st.stack,
                                 codeptr := st.codeptr + 1 } := by
  unfold step
  rw [hc, if_neg (by decide), if_neg (by decide), if_neg (by decide),
      if_neg (by decide), if_neg (by decide), if_neg (by decide), if_pos rfl,
      if_neg hnz]

theorem step_close_empty (code : List Char) (st : State)
    (hc : code.getD st.codeptr ' ' = ']') (hs : st.stack = []) :
    step code st = .error (.UnmatchedCloseBracket st.codeptr, st) := by
  unfold step
  rw [hc, if_neg (by decide), if_neg (by decide), if_neg (by decide),
      if_neg (by decide), if_neg (by decide), if_neg (by decide),
      if_neg (by decide), if_pos rfl, hs, if_pos List.isEmpty_nil]

theorem step_close_back (code : List Char) (st : State) (t : Nat) (rest : List Nat)
    (hc : code.getD st.codeptr ' ' = ']') (hs : st.stack = t :: rest)
    (hnz : st.memory.getD st.memptr 0 ≠ 0) :
    step code st = .ok { st with codeptr := t + 1 } := by
  unfold step
  rw [hc, if_neg (by decide), if_neg (by decide), if_neg (by decide),
      if_neg (by decide), if_neg (by decide), if_neg (by decide),
      if_neg (by decide), if_pos rfl, hs, if_neg (by simp), if_pos hnz]
  rfl

theorem step_close_pop (code : List Char) (st : State) (t : Nat) (rest : List Nat)
    (hc : code.getD st.codeptr ' ' = ']') (hs : st.stack = t :: rest)
    (hz : st.memory.getD st.memptr 0 = 0) :
    step code st = .ok { st with stack := rest, codeptr := st.codeptr + 1 } := by
  unfold step
  rw [hc, if_neg (by decide), if_neg (by decide), if_neg (by decide),
      if_neg (by decide), if_neg (by decide), if_neg (by decide),
      if_neg (by decide), if_pos rfl, hs, if_neg (by simp),
      if_neg (by simp only [ne_eq, not_not]; exact hz)]
  rfl

theorem step_other (code : List Char) (st : State) (c : Char)
    (hc : code.getD st.codeptr ' ' = c) (hni : isInstr c = false) :
    step code st = .ok { st with codeptr := st.codeptr + 1 } := by
  simp only [isInstr, Bool.or_eq_false_iff, beq_eq_false_iff_ne, ne_eq] at hni
  obtain ⟨⟨⟨⟨⟨⟨⟨h1, h2⟩, h3⟩, h4⟩, h5⟩, h6⟩, h7⟩, h8⟩ := hni
  unfold step
  rw [hc, if_neg h1, if_neg h2, if_neg h3, if_neg h4, if_neg h5, if_neg h6,
      if_neg h7, if_neg h8]

/-! ## Unfolding lemmas for the dispatch loop -/

theorem run_done (code : List Char) (st : State) (h : ¬ st.codeptr < code.length) :
    ∀ fuel, run code fuel st = .done st := by
  intro fuel
  cases fuel with
  | zero => unfold run; rw [if_neg h]
  | succ f => unfold run; rw [if_neg h]

theorem run_zero (code : List Char) (st : State) (h : st.codeptr < code.length) :
    run code 0 st = .outOfFuel st := by
  unfold run; rw [if_pos h]

theorem run_ok (code : List Char) (st st' : State) (fuel : Nat)
    (h : st.codeptr < code.length) (hs : step code st = .ok st') :
    run code (fuel + 1) st = run code fuel st' := by
  conv_lhs => rw [run]
  rw [if_pos h, hs]

theorem run_err (code : List Char) (st st' : State) (r : Reason) (fuel : Nat)
    (h : st.codeptr < code.length) (hs : step code st = .error (r, st')) :
    run code (fuel + 1) st = .failed r st' := by
  conv_lhs => rw [run]
  rw [if_pos h, hs]

/-! ## Bracket balance, from the spec's words

The spec describes `Validate` as a running balance counter: +1 per `[`,
-1 per `]`, failing if the balance ever goes negative on a prefix or is
nonzero at the end.  `specBalance` is that counter, written from the
spec's words, to be compared with the code's `validateBrackets`. -/

/-- Bracket balance of a program fragment: +1 per `[`, -1 per `]`
(the spec's "balance counter"). -/
def specBalance (cs : List Char) : Int := (cs.map bdelta).sum

/-- Balance of the first `i` instructions. -/
def Bal (code : List Char) (i : Nat) : Int := specBalance (code.take i)

theorem specBalance_nil : specBalance [] = 0 := rfl

theorem specBalance_cons (c : Char) (cs : List Char) :
    specBalance (c :: cs) = bdelta c + specBalance cs := by
  simp [specBalance]

theorem getD_of_lt (l : List Char) (i : Nat) (d : Char) (h : i < l.length) :
    l.getD i d = l.get ⟨i, h⟩ := by
  simp [List.getD_eq_getElem?_getD, List.getElem?_eq_getElem h]

theorem Bal_zero (code : List Char) : Bal code 0 = 0 := rfl

theorem Bal_succ (code : List Char) (i : Nat) (h : i < code.length) :
    Bal code (i + 1) = Bal code i + bdelta (code.get ⟨i, h⟩) := by
  have h' : i < (code.map bdelta).length := by simpa using h
  unfold Bal specBalance
  rw [List.map_take, List.map_take, List.sum_take_succ _ i h']
  congr 1
  simp

theorem Bal_ge (code : List Char) (i : Nat) (h : code.length ≤ i) :
    Bal code i = specBalance code := by
  unfold Bal
  rw [List.take_of_length_le h]

/-- The `validateBrackets` loop, related to the spec's balance counter:
starting from accumulator `b`, it accepts exactly when `b` plus the
balance of every nonempty program segment stays nonnegative and `b`
plus the total balance is zero. -/
theorem vLoop_iff (cs : List Char) : ∀ b : Int,
    vLoop b cs = true ↔
      ((∀ i, 1 ≤ i → i ≤ cs.length → 0 ≤ b + specBalance (cs.take i)) ∧
        b + specBalance cs = 0) := by
  induction cs with
  | nil =>
    intro b
    simp only [vLoop, beq_iff_eq, List.length_nil, specBalance_nil]
    constructor
    · intro hb
      exact ⟨fun i h1 h0 => by omega, by omega⟩
    · intro ⟨_, hb⟩
      omega
  | cons c cs ih =>
    intro b
    show (if b + bdelta c < 0 then false else vLoop (b + bdelta c) cs) = true ↔ _
    by_cases hneg : b + bdelta c < 0
    · rw [if_pos hneg]
      simp only [Bool.false_eq_true, false_iff, not_and]
      intro hall
      have h1 := hall 1 (by omega) (by simp only [List.length_cons]; omega)
      rw [show (1 : Nat) = 0 + 1 from rfl, List.take_succ_cons, List.take_zero,
          specBalance_cons, specBalance_nil] at h1
      omega
    · rw [if_neg hneg, ih (b + bdelta c)]
      constructor
      · intro ⟨hall, hend⟩
        refine ⟨fun i h1 hle => ?_, ?_⟩
        · obtain ⟨j, rfl⟩ : ∃ j, i = j + 1 := ⟨i - 1, by omega⟩
          rw [List.take_succ_cons, specBalance_cons]
          rcases Nat.eq_zero_or_pos j with hj | hj
          · subst hj
            rw [List.take_zero, specBalance_nil]
            omega
          · have hj2 : j ≤ cs.length := by
              simp only [List.length_cons] at hle
              omega
            have := hall j (by omega) hj2
            omega
        · rw [specBalance_cons]; omega
      · intro ⟨hall, hend⟩
        refine ⟨fun j h1 hle => ?_, ?_⟩
        · have := hall (j + 1) (by omega) (by simp only [List.length_cons]; omega)
          rw [List.take_succ_cons, specBalance_cons] at this
          omega
        · rw [specBalance_cons] at hend; omega

/-- `validateBrackets` against the spec's description: true exactly when
no prefix has negative balance and the final balance is zero. -/
theorem validate_iff (code : List Char) :
    validateBrackets code = true ↔
      ((∀ i, i ≤ code.length → 0 ≤ specBalance (code.take i)) ∧
        specBalance code = 0) := by
  unfold validateBrackets
  rw [vLoop_iff]
  constructor
  · intro ⟨hall, hend⟩
    refine ⟨fun i hle => ?_, by omega⟩
    rcases Nat.eq_zero_or_pos i with hi | hi
    · subst hi; rw [List.take_zero, specBalance_nil]
    · have := hall i (by omega) hle
      omega
  · intro ⟨hall, hend⟩
    exact ⟨fun i h1 hle => by have := hall i hle; omega, by omega⟩

/-- Validation gives: every position balance is nonnegative and the
total balance is zero. -/
theorem valid_Bal (code : List Char) (h : validateBrackets code = true) :
    (∀ i, 0 ≤ Bal code i) ∧ specBalance code = 0 := by
  obtain ⟨hall, hend⟩ := (validate_iff code).1 h
  refine ⟨fun i => ?_, hend⟩
  rcases Nat.le_total i code.length with hle | hge
  · exact hall i hle
  · rw [Bal_ge code i hge]; omega

theorem bdelta_bounds (c : Char) : -1 ≤ bdelta c ∧ bdelta c ≤ 1 := by
  unfold bdelta
  split_ifs <;> omega

/-- Behaviour of the forward scan: it never leaves the program, its
final balance is the starting balance shifted by the bracket balance of
the characters it crossed, the final balance is nonnegative, and it
stops either at balance zero or at the end of the program. -/
theorem scan_spec (code : List Char) :
    ∀ k pos b, code.length - pos ≤ k → pos ≤ code.length → 0 < b →
      pos ≤ (scan code pos b).1 ∧ (scan code pos b).1 ≤ code.length ∧
      (scan code pos b).2 = b + (Bal code (scan code pos b).1 - Bal code pos) ∧
      0 ≤ (scan code pos b).2 ∧
      ((scan code pos b).2 = 0 ∨ (scan code pos b).1 = code.length) := by
  intro k
  induction k with
  | zero =>
    intro pos b hk hle hb
    rw [scan, dif_neg (by omega)]
    dsimp only
    exact ⟨le_refl _, hle, by omega, by omega, Or.inr (by omega)⟩
  | succ k ih =>
    intro pos b hk hle hb
    rcases Nat.lt_or_ge pos code.length with hpos | hpos
    · rw [scan, dif_pos ⟨hpos, hb⟩]
      have hget := getD_of_lt code pos ' ' hpos
      have hBal := Bal_succ code pos hpos
      have hbd := bdelta_bounds (code.get ⟨pos, hpos⟩)
      rw [hget]
      rcases Int.lt_or_le 0 (b + bdelta (code.get ⟨pos, hpos⟩)) with hb' | hb'
      · obtain ⟨h1, h2, h3, h4, h5⟩ := ih (pos + 1) (b + bdelta (code.get ⟨pos, hpos⟩))
          (by omega) (by omega) hb'
        exact ⟨by omega, h2, by omega, h4, h5⟩
      · have hz : b + bdelta (code.get ⟨pos, hpos⟩) = 0 := by omega
        rw [scan, dif_neg (by omega)]
        dsimp only
        exact ⟨by omega, by omega, by omega, by omega, Or.inl hz⟩
    · rw [scan, dif_neg (by omega)]
      dsimp only
      exact ⟨le_refl _, hle, by omega, by omega, Or.inr (by omega)⟩

/-! ## The execution invariant

During a validated run, the bracket balance at the instruction pointer
always equals the depth of the loop-return stack, and the element at
depth `i` from the top is a position `q < |code|` whose successor
balance is the stack depth minus `i`.  This is what makes the two
runtime bracket aborts unreachable and empties the stack at normal
completion. -/

/-- The invariant, as a property of the instruction pointer and the
loop-return stack (the only state the bracket logic consults). -/
def InvCS (code : List Char) (cp : Nat) (stk : List Nat) : Prop :=
  cp ≤ code.length ∧
  Bal code cp = (stk.length : Int) ∧
  ∀ i (h : i < stk.length),
    stk.get ⟨i, h⟩ < code.length ∧
    Bal code (stk.get ⟨i, h⟩ + 1) = ((stk.length - i : Nat) : Int)

/-- The invariant on a full machine state. -/
def Inv (code : List Char) (st : State) : Prop := InvCS code st.codeptr st.stack

theorem InvCS_advance (code : List Char) (cp : Nat) (stk : List Nat)
    (hI : InvCS code cp stk) (hlt : cp < code.length)
    (hb0 : bdelta (code.get ⟨cp, hlt⟩) = 0) :
    InvCS code (cp + 1) stk := by
  obtain ⟨hcp, hbal, hstk⟩ := hI
  exact ⟨by omega, by rw [Bal_succ code cp hlt, hb0]; omega, hstk⟩

theorem InvCS_push (code : List Char) (cp : Nat) (stk : List Nat)
    (hI : InvCS code cp stk) (hlt : cp < code.length)
    (hb1 : bdelta (code.get ⟨cp, hlt⟩) = 1) :
    InvCS code (cp + 1) (cp :: stk) := by
  obtain ⟨hcp, hbal, hstk⟩ := hI
  have hsucc : Bal code (cp + 1) = (stk.length : Int) + 1 := by
    rw [Bal_succ code cp hlt, hb1]; omega
  refine ⟨by omega, by simp only [List.length_cons]; push_cast; omega, ?_⟩
  intro i h
  cases i with
  | zero =>
    refine ⟨hlt, ?_⟩
    show Bal code (cp + 1) = _
    simp only [List.length_cons]
    rw [hsucc]
    push_cast
    omega
  | succ j =>
    have hj : j < stk.length := by
      simp only [List.length_cons] at h
      omega
    obtain ⟨hq, hqb⟩ := hstk j hj
    refine ⟨hq, ?_⟩
    show Bal code (stk.get ⟨j, hj⟩ + 1) = _
    rw [hqb]
    simp only [List.length_cons]
    push_cast
    omega

theorem InvCS_pop (code : List Char) (cp : Nat) (t : Nat) (rest : List Nat)
    (hI : InvCS code cp (t :: rest)) (hlt : cp < code.length)
    (hbm : bdelta (code.get ⟨cp, hlt⟩) = -1) :
    InvCS code (cp + 1) rest := by
  obtain ⟨hcp, hbal, hstk⟩ := hI
  simp only [List.length_cons] at hbal
  refine ⟨by omega, ?_, ?_⟩
  · rw [Bal_succ code cp hlt, hbm]
    push_cast at hbal ⊢
    omega
  · intro i h
    have hi : i + 1 < (t :: rest).length := by
      simp only [List.length_cons]
      omega
    obtain ⟨hq, hqb⟩ := hstk (i + 1) hi
    refine ⟨hq, ?_⟩
    show Bal code (rest.get ⟨i, h⟩ + 1) = _
    have : (t :: rest).get ⟨i + 1, hi⟩ = rest.get ⟨i, h⟩ := rfl
    rw [this] at hqb
    rw [hqb]
    simp only [List.length_cons]
    omega

theorem InvCS_back (code : List Char) (cp : Nat) (t : Nat) (rest : List Nat)
    (hI : InvCS code cp (t :: rest)) :
    InvCS code (t + 1) (t :: rest) := by
  obtain ⟨hcp, hbal, hstk⟩ := hI
  obtain ⟨ht, htb⟩ := hstk 0 (by simp)
  have ht' : (t :: rest).get ⟨0, by simp⟩ = t := rfl
  rw [ht'] at ht htb
  refine ⟨by omega, ?_, hstk⟩
  rw [htb]
  simp

/-- One validated step preserves the invariant, and the only error it
can produce is the memory-limit abort: the two bracket aborts are
impossible under the invariant. -/
theorem step_inv (code : List Char) (st : State)
    (hv : validateBrackets code = true) (hI : Inv code st)
    (hlt : st.codeptr < code.length) :
    (∃ st', step code st = .ok st' ∧ Inv code st') ∨
    (∃ st', step code st = .error (.MemoryLimitExceeded, st')) := by
  obtain ⟨hall, hend⟩ := valid_Bal code hv
  have hget := getD_of_lt code st.codeptr ' ' hlt
  have hIc : InvCS code st.codeptr st.stack := hI
  unfold InvCS at hIc
  obtain ⟨hcp, hbal, hstk⟩ := hIc
  by_cases h1 : code.getD st.codeptr ' ' = '>'
  · rcases Nat.lt_or_ge (st.memptr + 1) st.memory.length with hm | hm
    · exact Or.inl ⟨_, step_gt_nogrow code st h1 hm,
        InvCS_advance code st.codeptr st.stack hI hlt (by rw [← hget, h1]; rfl)⟩
    · rcases Nat.lt_or_ge st.memory.length 1000000 with hc | hc
      · exact Or.inl ⟨_, step_gt_grow code st h1 hm hc,
          InvCS_advance code st.codeptr st.stack hI hlt (by rw [← hget, h1]; rfl)⟩
      · exact Or.inr ⟨_, step_gt_fail code st h1 hm hc⟩
  by_cases h2 : code.getD st.codeptr ' ' = '<'
  · exact Or.inl ⟨_, step_lt code st h2,
      InvCS_advance code st.codeptr st.stack hI hlt (by rw [← hget, h2]; rfl)⟩
  by_cases h3 : code.getD st.codeptr ' ' = '+'
  · exact Or.inl ⟨_, step_plus code st h3,
      InvCS_advance code st.codeptr st.stack hI hlt (by rw [← hget, h3]; rfl)⟩
  by_cases h4 : code.getD st.codeptr ' ' = '-'
  · exact Or.inl ⟨_, step_minus code st h4,
      InvCS_advance code st.codeptr st.stack hI hlt (by rw [← hget, h4]; rfl)⟩
  by_cases h5 : code.getD st.codeptr ' ' = '.'
  · exact Or.inl ⟨_, step_dot code st h5,
      InvCS_advance code st.codeptr st.stack hI hlt (by rw [← hget, h5]; rfl)⟩
  by_cases h6 : code.getD st.codeptr ' ' = ','
  · cases hin : st.input with
    | nil =>
      exact Or.inl ⟨_, step_comma_nil code st h6 hin,
        InvCS_advance code st.codeptr st.stack hI hlt (by rw [← hget, h6]; rfl)⟩
    | cons b rest =>
      exact Or.inl ⟨_, step_comma_cons code st b rest h6 hin,
        InvCS_advance code st.codeptr st.stack hI hlt (by rw [← hget, h6]; rfl)⟩
  by_cases h7 : code.getD st.codeptr ' ' = '['
  · have hb1 : bdelta (code.get ⟨st.codeptr, hlt⟩) = 1 := by
      rw [← hget, h7]; rfl
    by_cases hz : st.memory.getD st.memptr 0 = 0
    · obtain ⟨hs1, hs2, hs3, hs4, hs5⟩ :=
        scan_spec code (code.length - (st.codeptr + 1)) (st.codeptr + 1) 1
          (le_refl _) (by omega) (by omega)
      have hbcp : Bal code (st.codeptr + 1) = Bal code st.codeptr + 1 := by
        rw [Bal_succ code st.codeptr hlt, hb1]
      have hlen : Bal code code.length = 0 := by
        rw [Bal_ge code _ (le_refl _)]; exact hend
      have hnb : ¬ 0 < (scan code (st.codeptr + 1) 1).2 := by
        rcases hs5 with h0 | hl
        · omega
        · rw [hl] at hs3
          have hpos : (0 : Int) ≤ st.stack.length := by positivity
          omega
      refine Or.inl ⟨_, step_open_skip code st h7 hz (by omega), ?_⟩
      show InvCS code (scan code (st.codeptr + 1) 1).1 st.stack
      exact ⟨hs2, by omega, hstk⟩
    · exact Or.inl ⟨_, step_open_push code st h7 hz,
        InvCS_push code st.codeptr st.stack hI hlt hb1⟩
  by_cases h8 : code.getD st.codeptr ' ' = ']'
  · have hbm : bdelta (code.get ⟨st.codeptr, hlt⟩) = -1 := by
      rw [← hget, h8]; rfl
    cases hstack : st.stack with
    | nil =>
      exfalso
      rw [hstack] at hbal
      have hnext := hall (st.codeptr + 1)
      rw [Bal_succ code st.codeptr hlt, hbm] at hnext
      simp only [List.length_nil, Nat.cast_zero] at hbal
      omega
    | cons t rest =>
      by_cases hcell : st.memory.getD st.memptr 0 = 0
      · refine Or.inl ⟨_, step_close_pop code st t rest h8 hstack hcell, ?_⟩
        show InvCS code (st.codeptr + 1) rest
        refine InvCS_pop code st.codeptr t rest ?_ hlt hbm
        rw [← hstack]
        exact hI
      · refine Or.inl ⟨_, step_close_back code st t rest h8 hstack hcell, ?_⟩
        show InvCS code (t + 1) st.stack
        rw [hstack]
        refine InvCS_back code st.codeptr t rest ?_
        rw [← hstack]
        exact hI
  have hni : isInstr (code.getD st.codeptr ' ') = false := by
    simp only [isInstr, Bool.or_eq_false_iff, beq_eq_false_iff_ne, ne_eq]
    exact ⟨⟨⟨⟨⟨⟨⟨h1, h2⟩, h3⟩, h4⟩, h5⟩, h6⟩, h7⟩, h8⟩
  have hb0 : bdelta (code.get ⟨st.codeptr, hlt⟩) = 0 := by
    rw [← hget]
    unfold bdelta
    rw [if_neg h7, if_neg h8]
  exact Or.inl ⟨_, step_other code st _ rfl hni,
    InvCS_advance code st.codeptr st.stack hI hlt hb0⟩

/-- At the end of the program, the invariant forces an empty loop-return
stack (the balance of the whole validated program is zero). -/
theorem stack_nil_of_end (code : List Char) (st : State)
    (hv : validateBrackets code = true) (hI : Inv code st)
    (h : ¬ st.codeptr < code.length) : st.stack = [] := by
  obtain ⟨_, hend⟩ := valid_Bal code hv
  have hIc : InvCS code st.codeptr st.stack := hI
  unfold InvCS at hIc
  obtain ⟨hcp, hbal, _⟩ := hIc
  have hcpe : st.codeptr = code.length := by omega
  rw [hcpe, Bal_ge code _ (le_refl _), hend] at hbal
  have : st.stack.length = 0 := by omega
  exact List.length_eq_zero.1 this

/-- Under validation and the invariant, a run never fails with either
runtime bracket abort, and if it completes, the loop-return stack is
empty. -/
theorem run_inv (code : List Char) (hv : validateBrackets code = true) :
    ∀ fuel st, Inv code st →
      (∀ st', run code fuel st = .done st' → st'.stack = []) ∧
      (∀ p st', run code fuel st ≠ .failed (.UnmatchedOpenBracket p) st') ∧
      (∀ p st', run code fuel st ≠ .failed (.UnmatchedCloseBracket p) st') := by
  intro fuel
  induction fuel with
  | zero =>
    intro st hI
    by_cases h : st.codeptr < code.length
    · rw [run_zero code st h]
      refine ⟨?_, ?_, ?_⟩
      · intro st' h'
        cases h'
      · intro p st' h'
        cases h'
      · intro p st' h'
        cases h'
    · rw [run_done code st h 0]
      refine ⟨?_, ?_, ?_⟩
      · intro st' h'
        injection h' with h''
        rw [← h'']
        exact stack_nil_of_end code st hv hI h
      · intro p st' h'
        cases h'
      · intro p st' h'
        cases h'
  | succ f ih =>
    intro st hI
    by_cases h : st.codeptr < code.length
    · rcases step_inv code st hv hI h with ⟨st', hok, hI'⟩ | ⟨st', herr⟩
      · rw [run_ok code st st' f h hok]
        exact ih st' hI'
      · rw [run_err code st st' .MemoryLimitExceeded f h herr]
        refine ⟨?_, ?_, ?_⟩
        · intro s hd
          cases hd
        · intro p s hf
          simp at hf
        · intro p s hf
          simp at hf
    · rw [run_done code st h (f + 1)]
      refine ⟨?_, ?_, ?_⟩
      · intro st' h'
        injection h' with h''
        rw [← h'']
        exact stack_nil_of_end code st hv hI h
      · intro p st' h'
        cases h'
      · intro p st' h'
        cases h'

/-- The state entering the dispatch loop satisfies the invariant. -/
theorem Inv_init (code : List Char) (e : Engine) (input : List Nat) :
    Inv code (initState e input) := by
  show InvCS code 0 []
  refine ⟨Nat.zero_le _, ?_, ?_⟩
  · rw [Bal_zero]
    rfl
  · intro i h
    simp at h

/-- `execute` under a passing validation is the dispatch loop from the
freshly reset state. -/
theorem execute_of_valid (fuel : Nat) (e : Engine) (input : List Nat)
    (hv : validateBrackets e.code = true) :
    execute fuel e input = run e.code fuel (initState e input) := by
  unfold execute
  rw [if_pos hv]

/-! ## Generic `getD` helpers -/

theorem getD_append_right {α : Type _} (l1 l2 : List α) (j : Nat) (d : α) :
    (l1 ++ l2).getD (l1.length + j) d = l2.getD j d := by
  rw [List.getD_eq_getElem?_getD, List.getD_eq_getElem?_getD,
      List.getElem?_append_right (Nat.le_add_right _ _), Nat.add_sub_cancel_left]

theorem getD_append_left {α : Type _} (l1 l2 : List α) (j : Nat) (d : α)
    (h : j < l1.length) :
    (l1 ++ l2).getD j d = l1.getD j d := by
  rw [List.getD_eq_getElem?_getD, List.getD_eq_getElem?_getD,
      List.getElem?_append_left h]

theorem getD_replicate {α : Type _} (n j : Nat) (a d : α) (h : j < n) :
    (List.replicate n a).getD j d = a := by
  rw [List.getD_eq_getElem?_getD, List.getElem?_replicate, if_pos h]
  rfl

/-! ## Tape length along a run of `>` instructions

`Lc m` is the tape length the engine holds once the data pointer has
reached cell `m`, starting from the initial 30,000 cells and doubling
(capped at 1,000,000) whenever the pointer would leave the tape. -/

/-- Closed form of the doubling sequence 30000, 60000, ..., 960000,
1000000 as a function of the data pointer. -/
def Lc (m : Nat) : Nat :=
  if m < 30000 then 30000
  else if m < 60000 then 60000
  else if m < 120000 then 120000
  else if m < 240000 then 240000
  else if m < 480000 then 480000
  else if m < 960000 then 960000
  else 1000000

set_option maxHeartbeats 1000000 in
theorem Lc_pos (m : Nat) (h : m ≤ 999999) : m < Lc m ∧ Lc m ≤ 1000000 := by
  unfold Lc
  split_ifs <;> omega

set_option maxHeartbeats 2000000 in
theorem Lc_rec (m : Nat) (h : m ≤ 999998) :
    Lc (m + 1) = if Lc m ≤ m + 1 then min (Lc m * 2) 1000000 else Lc m := by
  unfold Lc
  split_ifs <;> omega

theorem Lc_zero : Lc 0 = 30000 := by norm_num [Lc]

theorem Lc_top : Lc 999999 = 1000000 := by norm_num [Lc]

/-! ## A program of 1,000,000 `>` instructions hits the memory cap -/

/-- One million `>` instructions. -/
def gtCode : List Char := List.replicate 1000000 '>'

/-- State after executing `m` of the `>` instructions. -/
def gtSt (m : Nat) : State :=
  { memory := List.replicate (Lc m) 0, memptr := m, codeptr := m,
    stack := [], input := [], output := [] }

/-- The state carried by the memory-limit abort of `gtCode`. -/
def gtFailSt : State :=
  { memory := List.replicate 1000000 0, memptr := 1000000, codeptr := 999999,
    stack := [], input := [], output := [] }

theorem gtCode_getD (m : Nat) (h : m < 1000000) : gtCode.getD m ' ' = '>' :=
  getD_replicate 1000000 m '>' ' ' h

theorem gtStep (m : Nat) (hm : m ≤ 999998) :
    step gtCode (gtSt m) = .ok (gtSt (m + 1)) := by
  have hc : gtCode.getD (gtSt m).codeptr ' ' = '>' := gtCode_getD m (by omega)
  have hrec := Lc_rec m hm
  have hp := Lc_pos m (by omega)
  by_cases hg : Lc m ≤ m + 1
  · rw [step_gt_grow gtCode (gtSt m) hc (by simp [gtSt]; omega) (by simp [gtSt]; omega)]
    rw [if_pos hg] at hrec
    simp only [gtSt, List.length_replicate, Except.ok.injEq, State.mk.injEq,
      and_true, true_and]
    rw [← List.replicate_add]
    congr 1
    omega
  · rw [step_gt_nogrow gtCode (gtSt m) hc (by simp [gtSt]; omega)]
    rw [if_neg hg] at hrec
    simp only [gtSt, Except.ok.injEq, State.mk.injEq, hrec, and_true, true_and]

theorem gtFail : step gtCode (gtSt 999999) = .error (.MemoryLimitExceeded, gtFailSt) := by
  have hc : gtCode.getD (gtSt 999999).codeptr ' ' = '>' := gtCode_getD 999999 (by norm_num)
  have hge : (gtSt 999999).memory.length ≤ (gtSt 999999).memptr + 1 := by
    show (List.replicate (Lc 999999) (0:Nat)).length ≤ 999999 + 1
    rw [List.length_replicate, Lc_top]
  have hcap : (1000000:Nat) ≤ (gtSt 999999).memory.length := by
    show (1000000:Nat) ≤ (List.replicate (Lc 999999) (0:Nat)).length
    rw [List.length_replicate, Lc_top]
  rw [step_gt_fail gtCode (gtSt 999999) hc hge hcap]
  unfold gtSt gtFailSt
  rw [Lc_top]

theorem gtRun : ∀ k m, m + k = 999999 →
    run gtCode (k + 1) (gtSt m) = .failed .MemoryLimitExceeded gtFailSt := by
  intro k
  induction k with
  | zero =>
    intro m hm
    have hm' : m = 999999 := by omega
    subst hm'
    refine run_err gtCode (gtSt 999999) gtFailSt .MemoryLimitExceeded 0 ?_ gtFail
    show (999999:Nat) < (List.replicate 1000000 '>').length
    rw [List.length_replicate]
    norm_num
  | succ k ih =>
    intro m hm
    rw [run_ok gtCode (gtSt m) (gtSt (m + 1)) (k + 1)
      (by simp only [gtSt, gtCode, List.length_replicate]; omega)
      (gtStep m (by omega))]
    exact ih (m + 1) (by omega)

/-- A fresh engine loaded with one million `>` instructions. -/
def gtEngine : Engine :=
  { code := gtCode, memory := List.replicate 30000 0, memptr := 0,
    codeptr := 0, stack := [] }

theorem vLoop_gtAux : ∀ n, vLoop 0 (List.replicate n '>') = true := by
  intro n
  induction n with
  | zero => rfl
  | succ n ih =>
    rw [List.replicate_succ]
    show (if (0 : Int) + bdelta '>' < 0 then false
          else vLoop (0 + bdelta '>') (List.replicate n '>')) = true
    have hb : bdelta '>' = 0 := by decide
    rw [hb, add_zero, if_neg (by omega)]
    exact ih

theorem validate_gtCode : validateBrackets gtCode = true := vLoop_gtAux 1000000

theorem gt_execute :
    execute 1000000 gtEngine [] = .failed .MemoryLimitExceeded gtFailSt := by
  rw [execute_of_valid 1000000 gtEngine [] validate_gtCode]
  have hinit : initState gtEngine [] = gtSt 0 := by
    simp only [initState, gtEngine, gtSt, List.map_replicate, Lc_zero]
  rw [hinit, show (1000000 : Nat) = 999999 + 1 by norm_num]
  exact gtRun 999999 0 (by norm_num)

/-! ## The program `+[>+]` hits the memory cap inside an entered loop

Its loop-return stack still holds the position of the `[` when the
run aborts, which the memory-limit return path never clears. -/

/-- The program `+[>+]`. -/
def plusCode : List Char := ['+', '[', '>', '+', ']']

/-- State at the top of the loop body (`>` at position 2) after `m`
full iterations: cells `0..m` hold 1, the rest of the tape is zero,
and position 1 (the `[`) sits on the loop-return stack. -/
def plusSt (m : Nat) : State :=
  { memory := List.replicate (m + 1) 1 ++ List.replicate (Lc m - (m + 1)) 0,
    memptr := m, codeptr := 2, stack := [1], input := [], output := [] }

/-- The state carried by the memory-limit abort of `plusCode`: the
loop-return stack is NOT empty. -/
def plusFailSt : State :=
  { memory := List.replicate 1000000 1, memptr := 1000000, codeptr := 2,
    stack := [1], input := [], output := [] }

/-- State after the `>` of iteration `m` (about to run the `+` at 3). -/
def plusMid1 (m : Nat) : State :=
  { memory := List.replicate (m + 1) 1 ++ List.replicate (Lc (m + 1) - (m + 1)) 0,
    memptr := m + 1, codeptr := 3, stack := [1], input := [], output := [] }

/-- State after the `+` of iteration `m` (about to run the `]` at 4). -/
def plusMid2 (m : Nat) : State :=
  { memory := List.replicate (m + 2) 1 ++ List.replicate (Lc (m + 1) - (m + 2)) 0,
    memptr := m + 1, codeptr := 4, stack := [1], input := [], output := [] }

theorem plusStep1 (m : Nat) (hm : m ≤ 999998) :
    step plusCode (plusSt m) = .ok (plusMid1 m) := by
  have hp := Lc_pos m (by omega)
  have hp1 := Lc_pos (m + 1) (by omega)
  have hrec := Lc_rec m hm
  have hc : plusCode.getD (plusSt m).codeptr ' ' = '>' := rfl
  have hlen : (plusSt m).memory.length = Lc m := by
    show (List.replicate (m + 1) (1:Nat) ++
      List.replicate (Lc m - (m + 1)) 0).length = Lc m
    rw [List.length_append, List.length_replicate, List.length_replicate]
    omega
  by_cases hg : Lc m ≤ m + 1
  · rw [if_pos hg] at hrec
    rw [step_gt_grow plusCode (plusSt m) hc
      (by rw [hlen]; show Lc m ≤ m + 1; omega)
      (by rw [hlen]; omega)]
    rw [hlen]
    simp only [plusSt, plusMid1]
    rw [List.append_assoc, ← List.replicate_add]
    rw [show Lc m - (m + 1) + (min (Lc m * 2) 1000000 - Lc m) =
        Lc (m + 1) - (m + 1) from by omega]
  · rw [if_neg hg] at hrec
    rw [step_gt_nogrow plusCode (plusSt m) hc
      (by rw [hlen]; show m + 1 < Lc m; omega)]
    simp only [plusSt, plusMid1]
    rw [hrec]

theorem plusStep2 (m : Nat) (hm : m ≤ 999998) :
    step plusCode (plusMid1 m) = .ok (plusMid2 m) := by
  have hp1 := Lc_pos (m + 1) (by omega)
  have hk : 0 < Lc (m + 1) - (m + 1) := by omega
  have hcell : (List.replicate (m + 1) (1:Nat) ++
      List.replicate (Lc (m + 1) - (m + 1)) 0).getD (m + 1) 0 = 0 := by
    have h := getD_append_right (List.replicate (m + 1) (1:Nat))
      (List.replicate (Lc (m + 1) - (m + 1)) 0) 0 0
    rw [List.length_replicate, Nat.add_zero] at h
    rw [h, getD_replicate _ 0 0 0 hk]
  have hc : plusCode.getD (plusMid1 m).codeptr ' ' = '+' := rfl
  rw [step_plus plusCode (plusMid1 m) hc]
  simp only [plusMid1, plusMid2]
  rw [hcell]
  rw [show ((0:Nat) + 1) % 256 = 1 from by norm_num]
  have h : (List.replicate (m + 1) (1:Nat) ++
      List.replicate (Lc (m + 1) - (m + 1)) 0).set (m + 1) 1 =
      List.replicate (m + 1) 1 ++ (List.replicate (Lc (m + 1) - (m + 1)) 0).set
        ((m + 1) - (List.replicate (m + 1) (1:Nat)).length) 1 :=
    List.set_append_right _ _ (by rw [List.length_replicate])
  rw [List.length_replicate, Nat.sub_self] at h
  rw [h]
  have hsetz : (List.replicate (Lc (m + 1) - (m + 1)) (0:Nat)).set 0 1 =
      1 :: List.replicate (Lc (m + 1) - (m + 2)) 0 := by
    rw [show Lc (m + 1) - (m + 1) = (Lc (m + 1) - (m + 2)) + 1 from by omega,
        List.replicate_succ, List.set_cons_zero]
  rw [hsetz]
  conv_rhs => rw [show m + 2 = (m + 1) + 1 from rfl, List.replicate_succ']
  rw [List.append_assoc, List.singleton_append]

theorem plusStep3 (m : Nat) :
    step plusCode (plusMid2 m) = .ok (plusSt (m + 1)) := by
  have hcell : (List.replicate (m + 2) (1:Nat) ++
      List.replicate (Lc (m + 1) - (m + 2)) 0).getD (m + 1) 0 = 1 := by
    rw [getD_append_left _ _ _ _ (by rw [List.length_replicate]; omega),
        getD_replicate _ _ _ _ (by omega)]
  have hc : plusCode.getD (plusMid2 m).codeptr ' ' = ']' := rfl
  have hnz : (plusMid2 m).memory.getD (plusMid2 m).memptr 0 ≠ 0 := by
    show (List.replicate (m + 2) (1:Nat) ++
      List.replicate (Lc (m + 1) - (m + 2)) 0).getD (m + 1) 0 ≠ 0
    rw [hcell]
    omega
  rw [step_close_back plusCode (plusMid2 m) 1 [] hc rfl hnz]
  rfl

theorem plusIter (m : Nat) (hm : m ≤ 999998) (fuel : Nat) :
    run plusCode (fuel + 3) (plusSt m) = run plusCode fuel (plusSt (m + 1)) := by
  rw [show fuel + 3 = fuel + 2 + 1 from rfl,
      run_ok plusCode (plusSt m) (plusMid1 m) (fuel + 2)
        (by show (2:Nat) < plusCode.length; norm_num [plusCode]) (plusStep1 m hm),
      show fuel + 2 = fuel + 1 + 1 from rfl,
      run_ok plusCode (plusMid1 m) (plusMid2 m) (fuel + 1)
        (by show (3:Nat) < plusCode.length; norm_num [plusCode]) (plusStep2 m hm),
      run_ok plusCode (plusMid2 m) (plusSt (m + 1)) fuel
        (by show (4:Nat) < plusCode.length; norm_num [plusCode]) (plusStep3 m)]

theorem plusFail : step plusCode (plusSt 999999) =
    .error (.MemoryLimitExceeded, plusFailSt) := by
  have hc : plusCode.getD (plusSt 999999).codeptr ' ' = '>' := rfl
  have hge : (plusSt 999999).memory.length ≤ (plusSt 999999).memptr + 1 := by
    show (List.replicate (999999 + 1) (1:Nat) ++
      List.replicate (Lc 999999 - (999999 + 1)) 0).length ≤ 999999 + 1
    rw [List.length_append, List.length_replicate, List.length_replicate, Lc_top]
  have hcap : (1000000:Nat) ≤ (plusSt 999999).memory.length := by
    show (1000000:Nat) ≤ (List.replicate (999999 + 1) (1:Nat) ++
      List.replicate (Lc 999999 - (999999 + 1)) 0).length
    rw [List.length_append, List.length_replicate, List.length_replicate, Lc_top]
  rw [step_gt_fail plusCode (plusSt 999999) hc hge hcap]
  simp only [plusSt, plusFailSt]
  rw [Lc_top]
  norm_num

theorem plusRun : ∀ k m, m + k = 999999 →
    run plusCode (3 * k + 1) (plusSt m) = .failed .MemoryLimitExceeded plusFailSt := by
  intro k
  induction k with
  | zero =>
    intro m hm
    have hm' : m = 999999 := by omega
    subst hm'
    rw [show 3 * 0 + 1 = 0 + 1 from by norm_num]
    exact run_err plusCode (plusSt 999999) plusFailSt .MemoryLimitExceeded 0
      (by show (2:Nat) < plusCode.length; norm_num [plusCode]) plusFail
  | succ k ih =>
    intro m hm
    rw [show 3 * (k + 1) + 1 = 3 * k + 1 + 3 from by ring,
        plusIter m (by omega) (3 * k + 1)]
    exact ih (m + 1) (by omega)

/-- A fresh engine loaded with `+[>+]`. -/
def plusEngine : Engine :=
  { code := plusCode, memory := List.replicate 30000 0, memptr := 0,
    codeptr := 0, stack := [] }

/-- The state entering the dispatch loop for `plusEngine`. -/
def plusInit0 : State :=
  { memory := List.replicate 30000 0, memptr := 0, codeptr := 0,
    stack := [], input := [], output := [] }

/-- State after the initial `+` of `+[>+]`. -/
def plusInit1 : State :=
  { memory := List.replicate 1 1 ++ List.replicate 29999 0,
    memptr := 0, codeptr := 1, stack := [], input := [], output := [] }

theorem plus_s0 : step plusCode plusInit0 = .ok plusInit1 := by
  have hc : plusCode.getD plusInit0.codeptr ' ' = '+' := rfl
  rw [step_plus plusCode plusInit0 hc]
  simp only [plusInit0, plusInit1]
  rw [getD_replicate 30000 0 (0:Nat) 0 (by norm_num)]
  rw [show ((0:Nat) + 1) % 256 = 1 from by norm_num]
  rw [show (30000:Nat) = 29999 + 1 from by norm_num, List.replicate_succ,
      List.set_cons_zero]
  rfl

theorem plus_s1 : step plusCode plusInit1 = .ok (plusSt 0) := by
  have hc : plusCode.getD plusInit1.codeptr ' ' = '[' := rfl
  have hnz : plusInit1.memory.getD plusInit1.memptr 0 ≠ 0 := by
    show (List.replicate 1 (1:Nat) ++ List.replicate 29999 0).getD 0 0 ≠ 0
    rw [getD_append_left _ _ _ _ (by rw [List.length_replicate]; omega),
        getD_replicate _ _ _ _ (by omega)]
    omega
  rw [step_open_push plusCode plusInit1 hc hnz]
  simp only [plusInit1, plusSt]
  rw [Lc_zero]

/-- Every successful step keeps the data pointer strictly inside the
tape: `>` either stays inside or grows the tape past the new pointer,
`<` clamps at zero, and no other instruction moves the pointer or
shrinks the tape. -/
theorem step_memsafe (code : List Char) (st st' : State)
    (hm : st.memptr < st.memory.length) (h : step code st = .ok st') :
    st'.memptr < st'.memory.length := by
  by_cases h1 : code.getD st.codeptr ' ' = '>'
  · rcases Nat.lt_or_ge (st.memptr + 1) st.memory.length with hlt | hge
    · rw [step_gt_nogrow code st h1 hlt] at h
      injection h with h
      rw [← h]
      exact hlt
    · rcases Nat.lt_or_ge st.memory.length 1000000 with hcap | hcap
      · rw [step_gt_grow code st h1 hge hcap] at h
        injection h with h
        rw [← h]
        show st.memptr + 1 < (st.memory ++ List.replicate _ 0).length
        rw [List.length_append, List.length_replicate]
        omega
      · rw [step_gt_fail code st h1 hge hcap] at h
        cases h
  by_cases h2 : code.getD st.codeptr ' ' = '<'
  · rw [step_lt code st h2] at h
    injection h with h
    rw [← h]
    show (if 0 < st.memptr then st.memptr - 1 else st.memptr) < st.memory.length
    split_ifs <;> omega
  by_cases h3 : code.getD st.codeptr ' ' = '+'
  · rw [step_plus code st h3] at h
    injection h with h
    rw [← h]
    show st.memptr < (st.memory.set _ _).length
    rw [List.length_set]
    exact hm
  by_cases h4 : code.getD st.codeptr ' ' = '-'
  · rw [step_minus code st h4] at h
    injection h with h
    rw [← h]
    show st.memptr < (st.memory.set _ _).length
    rw [List.length_set]
    exact hm
  by_cases h5 : code.getD st.codeptr ' ' = '.'
  · rw [step_dot code st h5] at h
    injection h with h
    rw [← h]
    exact hm
  by_cases h6 : code.getD st.codeptr ' ' = ','
  · cases hin : st.input with
    | nil =>
      rw [step_comma_nil code st h6 hin] at h
      injection h with h
      rw [← h]
      show st.memptr < (st.memory.set _ _).length
      rw [List.length_set]
      exact hm
    | cons b rest =>
      rw [step_comma_cons code st b rest h6 hin] at h
      injection h with h
      rw [← h]
      show st.memptr < (st.memory.set _ _).length
      rw [List.length_set]
      exact hm
  by_cases h7 : code.getD st.codeptr ' ' = '['
  · by_cases hz : st.memory.getD st.memptr 0 = 0
    · rcases Int.lt_or_le 0 (scan code (st.codeptr + 1) 1).2 with hb | hb
      · rw [step_open_fail code st h7 hz hb] at h
        cases h
      · rw [step_open_skip code st h7 hz hb] at h
        injection h with h
        rw [← h]
        exact hm
    · rw [step_open_push code st h7 hz] at h
      injection h with h
      rw [← h]
      exact hm
  by_cases h8 : code.getD st.codeptr ' ' = ']'
  · cases hstack : st.stack with
    | nil =>
      rw [step_close_empty code st h8 hstack] at h
      cases h
    | cons t rest =>
      by_cases hcell : st.memory.getD st.memptr 0 = 0
      · rw [step_close_pop code st t rest h8 hstack hcell] at h
        injection h with h
        rw [← h]
        exact hm
      · rw [step_close_back code st t rest h8 hstack hcell] at h
        injection h with h
        rw [← h]
        exact hm
  have hni : isInstr (code.getD st.codeptr ' ') = false := by
    simp only [isInstr, Bool.or_eq_false_iff, beq_eq_false_iff_ne, ne_eq]
    exact ⟨⟨⟨⟨⟨⟨⟨h1, h2⟩, h3⟩, h4⟩, h5⟩, h6⟩, h7⟩, h8⟩
  rw [step_other code st _ rfl hni] at h
  injection h with h
  rw [← h]
  exact hm

theorem plus_execute :
    execute 3000000 plusEngine [] = .failed .MemoryLimitExceeded plusFailSt := by
  rw [execute_of_valid 3000000 plusEngine [] (by decide)]
  have hcode : plusEngine.code = plusCode := rfl
  have hinit : initState plusEngine [] = plusInit0 := by
    simp only [initState, plusEngine, plusInit0, List.map_replicate]
  rw [hcode, hinit,
      show (3000000:Nat) = 2999999 + 1 from by norm_num,
      run_ok plusCode plusInit0 plusInit1 2999999
        (by show (0:Nat) < plusCode.length; norm_num [plusCode]) plus_s0,
      show (2999999:Nat) = 2999998 + 1 from by norm_num,
      run_ok plusCode plusInit1 (plusSt 0) 2999998
        (by show (1:Nat) < plusCode.length; norm_num [plusCode]) plus_s1,
      show (2999998:Nat) = 3 * 999999 + 1 from by norm_num]
  exact plusRun 999999 0 (by norm_num)

/-! ## The claims -/

/-- C1: executing `]` with a nonempty loop-return stack and a nonzero
current cell sets the instruction pointer (after the folded-in
advance-by-one of the main loop) to the position immediately after the
`[` on top of the stack, without popping the stack; executing `]` with
a zero current cell pops the stack and falls through to the next
instruction. -/
theorem C1_close_bracket (code : List Char) (st : State) (t : Nat) (rest : List Nat)
    (hc : code.getD st.codeptr ' ' = ']') (hs : st.stack = t :: rest) :
    (st.memory.getD st.memptr 0 ≠ 0 →
      step code st = .ok { st with codeptr := t + 1 }) ∧
    (st.memory.getD st.memptr 0 = 0 →
      step code st = .ok { st with stack := rest, codeptr := st.codeptr + 1 }) :=
  ⟨fun hnz => step_close_back code st t rest hc hs hnz,
   fun hz => step_close_pop code st t rest hc hs hz⟩

/-- Witness for C1 at a concrete state: `]` at position 0 with cell 1
and stack top 5 jumps to 6 without popping. -/
theorem C1_close_bracket_witness :
    step [']'] ⟨[1], 0, 0, [5], [], []⟩ = .ok ⟨[1], 0, 6, [5], [], []⟩ :=
  (C1_close_bracket [']'] ⟨[1], 0, 0, [5], [], []⟩ 5 [] (by decide) rfl).1 (by decide)

/-- C2: `>` increments the data pointer; when the new pointer would
reach past the tape, the tape grows to `min (2·length) 1000000` with
existing cells preserved (the old list is a plain prefix) and new cells
zero, and if growth is required at the 1,000,000-cell cap the step
aborts with `MemoryLimitExceeded`.  A program of one million `>`
instructions run on a fresh engine fails with `MemoryLimitExceeded`. -/
theorem C2_gt_growth (code : List Char) (st : State)
    (hc : code.getD st.codeptr ' ' = '>') :
    (st.memptr + 1 < st.memory.length →
      step code st = .ok { st with memptr := st.memptr + 1,
                                   codeptr := st.codeptr + 1 }) ∧
    (st.memory.length ≤ st.memptr + 1 → st.memory.length < 1000000 →
      step code st = .ok { st with
        memptr := st.memptr + 1,
        memory := st.memory ++
          List.replicate (min (st.memory.length * 2) 1000000 - st.memory.length) 0,
        codeptr := st.codeptr + 1 } ∧
      (st.memory ++
        List.replicate (min (st.memory.length * 2) 1000000 - st.memory.length)
          0).length = min (st.memory.length * 2) 1000000) ∧
    (st.memory.length ≤ st.memptr + 1 → 1000000 ≤ st.memory.length →
      step code st = .error (.MemoryLimitExceeded, { st with memptr := st.memptr + 1 })) ∧
    execute 1000000 gtEngine [] = .failed .MemoryLimitExceeded gtFailSt := by
  refine ⟨fun hlt => step_gt_nogrow code st hc hlt,
    fun hge hcap => ⟨step_gt_grow code st hc hge hcap, ?_⟩,
    fun hge hcap => step_gt_fail code st hc hge hcap,
    gt_execute⟩
  rw [List.length_append, List.length_replicate]
  omega

/-- Witness for C2 at a concrete state: `>` with room left just moves
the pointer. -/
theorem C2_gt_growth_witness :
    step ['>'] ⟨[0, 0], 0, 0, [], [], []⟩ = .ok ⟨[0, 0], 1, 1, [], [], []⟩ :=
  (C2_gt_growth ['>'] ⟨[0, 0], 0, 0, [], [], []⟩ (by decide)).1 (by decide)

/-- C3: `validateBrackets` returns true exactly when the running
bracket balance (+1 per `[`, −1 per `]`) is nonnegative on every
program segment and zero for the whole program. -/
theorem C3_validate_iff (code : List Char) :
    validateBrackets code = true ↔
      ((∀ i, i ≤ code.length → 0 ≤ specBalance (code.take i)) ∧
        specBalance code = 0) :=
  validate_iff code

/-- Witness for C3 at a concrete program, extracting a nonnegativity
fact from the forward direction. -/
theorem C3_validate_iff_witness : 0 ≤ specBalance (List.take 1 ['[', ']']) :=
  ((C3_validate_iff ['[', ']']).mp (by decide)).1 1 (by decide)

/-- C4: when bracket validation fails, `execute` terminates for every
fuel bound with reason `UnmatchedBrackets`, and the carried state is the
engine state at entry: no tape cell is changed, no reset has happened,
the stack and pointers are untouched. -/
theorem C4_invalid_aborts (fuel : Nat) (e : Engine) (input : List Nat)
    (hv : validateBrackets e.code = false) :
    execute fuel e input = .failed .UnmatchedBrackets (entryState e input) ∧
    (entryState e input).memory = e.memory ∧
    (entryState e input).stack = e.stack ∧
    (entryState e input).memptr = e.memptr ∧
    (entryState e input).codeptr = e.codeptr := by
  refine ⟨?_, rfl, rfl, rfl, rfl⟩
  unfold execute
  rw [hv, if_neg (by exact Bool.false_ne_true)]

/-- Witness for C4: the program `[+` fails validation and aborts with
`UnmatchedBrackets` leaving the two-cell tape `[7, 8]` as it was. -/
theorem C4_invalid_aborts_witness :
    execute 5 ⟨['[', '+'], [7, 8], 1, 2, [0]⟩ [] =
      .failed .UnmatchedBrackets ⟨[7, 8], 1, 2, [0], [], []⟩ :=
  (C4_invalid_aborts 5 ⟨['[', '+'], [7, 8], 1, 2, [0]⟩ [] (by decide)).1

/-- C5 counterexample: the run of `+[>+]` on a fresh engine ends in a
`MemoryLimitExceeded` failure whose carried member state still holds
position 1 on the loop-return stack, so the stack is NOT empty after
this failed run. -/
theorem C5_counterexample :
    execute 3000000 plusEngine [] = .failed .MemoryLimitExceeded plusFailSt ∧
    plusFailSt.stack = [1] ∧ plusFailSt.stack ≠ [] :=
  ⟨plus_execute, rfl, by decide⟩

/-- C5 amended: the loop-return stack is empty immediately before the
dispatch loop starts, and after a run that ends in success; a failed
run can leave it nonempty. -/
theorem C5_stack_scoped (e : Engine) (input : List Nat) :
    (initState e input).stack = [] ∧
    (∀ fuel st', execute fuel e input = .done st' → st'.stack = []) := by
  refine ⟨rfl, ?_⟩
  intro fuel st' hd
  by_cases hv : validateBrackets e.code = true
  · rw [execute_of_valid fuel e input hv] at hd
    exact (run_inv e.code hv fuel (initState e input)
      (Inv_init e.code e input)).1 st' hd
  · have hv' : validateBrackets e.code = false := by
      cases hb : validateBrackets e.code
      · rfl
      · exact absurd hb hv
    unfold execute at hd
    rw [hv', if_neg (by exact Bool.false_ne_true)] at hd
    cases hd

/-- Witness for C5 amended: a completed run of `+` ends with an empty
stack. -/
theorem C5_stack_scoped_witness :
    ({ memory := [1], memptr := 0, codeptr := 1, stack := [],
       input := [], output := [] } : State).stack = [] :=
  (C5_stack_scoped ⟨['+'], [0], 0, 0, []⟩ []).2 1
    ⟨[1], 0, 1, [], [], []⟩ (by decide)

/-- C6: the data pointer stays strictly inside the tape across every
successful step and starts at 0; `<` at data pointer 0 only advances
the instruction pointer (a no-op on tape, pointer, stack and streams);
and the run of `"<<<+"` on a fresh engine completes with the same final
tape, data pointer, stack and output as the run of `"+"`. -/
theorem C6_pointer_in_bounds :
    (∀ code (st st' : State), st.memptr < st.memory.length →
      step code st = .ok st' → st'.memptr < st'.memory.length) ∧
    (∀ e input, (initState e input).memptr = 0) ∧
    (∀ code (st : State), code.getD st.codeptr ' ' = '<' → st.memptr = 0 →
      step code st = .ok { st with codeptr := st.codeptr + 1 }) ∧
    (execute 4 (freshEngine ['<', '<', '<', '+']) []).isDone = true ∧
    (execute 1 (freshEngine ['+']) []).isDone = true ∧
    (execute 4 (freshEngine ['<', '<', '<', '+']) []).finalState.memory =
      (execute 1 (freshEngine ['+']) []).finalState.memory ∧
    (execute 4 (freshEngine ['<', '<', '<', '+']) []).finalState.memptr =
      (execute 1 (freshEngine ['+']) []).finalState.memptr ∧
    (execute 4 (freshEngine ['<', '<', '<', '+']) []).finalState.stack =
      (execute 1 (freshEngine ['+']) []).finalState.stack ∧
    (execute 4 (freshEngine ['<', '<', '<', '+']) []).finalState.output =
      (execute 1 (freshEngine ['+']) []).finalState.output := by
  refine ⟨step_memsafe, fun e input => rfl, ?_, rfl, rfl, rfl, rfl, rfl, rfl⟩
  intro code st hc hz
  rw [step_lt code st hc, hz, if_neg (lt_irrefl 0)]

/-- Witness for C6: a concrete step of `+` keeps the pointer inside the
one-cell tape. -/
theorem C6_pointer_in_bounds_witness :
    (({ memory := [1], memptr := 0, codeptr := 1, stack := [],
        input := [], output := [] } : State)).memptr <
      (({ memory := [1], memptr := 0, codeptr := 1, stack := [],
          input := [], output := [] } : State)).memory.length :=
  C6_pointer_in_bounds.1 ['+'] ⟨[0], 0, 0, [], [], []⟩
    ⟨[1], 0, 1, [], [], []⟩ (by decide) rfl

/-- C7: `reset` zeroes every tape cell, zeroes both pointers, empties
the loop-return stack, keeps the loaded program, and keeps the tape
length (a grown tape is not shrunk). -/
theorem C7_reset (e : Engine) :
    (reset e).code = e.code ∧
    (reset e).memory.length = e.memory.length ∧
    (∀ i (h : i < (reset e).memory.length), (reset e).memory.get ⟨i, h⟩ = 0) ∧
    (reset e).memptr = 0 ∧ (reset e).codeptr = 0 ∧ (reset e).stack = [] := by
  refine ⟨rfl, by simp [reset], ?_, rfl, rfl, rfl⟩
  intro i h
  simp [reset]

/-- Witness for C7 on a concrete engine with a nonzero cell. -/
theorem C7_reset_witness :
    (reset ⟨['+'], [9, 9], 1, 1, [3]⟩).memory.get ⟨0, by decide⟩ = 0 :=
  (C7_reset ⟨['+'], [9, 9], 1, 1, [3]⟩).2.2.1 0 (by decide)

/-- C8: `+` and `-` update the current cell modulo 256 (unsigned-char
wraparound; the decrement is `+255 mod 256`), so a cell holding 255
becomes 0 under `+` and a cell holding 0 becomes 255 under `-`. -/
theorem C8_cell_wrap (code : List Char) (st : State) :
    (code.getD st.codeptr ' ' = '+' →
      step code st = .ok { st with
        memory := st.memory.set st.memptr ((st.memory.getD st.memptr 0 + 1) % 256),
        codeptr := st.codeptr + 1 }) ∧
    (code.getD st.codeptr ' ' = '-' →
      step code st = .ok { st with
        memory := st.memory.set st.memptr ((st.memory.getD st.memptr 0 + 255) % 256),
        codeptr := st.codeptr + 1 }) ∧
    (st.memory.getD st.memptr 0 = 255 → (st.memory.getD st.memptr 0 + 1) % 256 = 0) ∧
    (st.memory.getD st.memptr 0 = 0 → (st.memory.getD st.memptr 0 + 255) % 256 = 255) := by
  refine ⟨fun hc => step_plus code st hc, fun hc => step_minus code st hc,
    fun hv => ?_, fun hv => ?_⟩
  · rw [hv]
  · rw [hv]

/-- Witness for C8: incrementing a cell holding 255 wraps to 0. -/
theorem C8_cell_wrap_witness :
    step ['+'] ⟨[255], 0, 0, [], [], []⟩ = .ok ⟨[0], 0, 1, [], [], []⟩ :=
  (C8_cell_wrap ['+'] ⟨[255], 0, 0, [], [], []⟩).1 (by decide)

/-- C9: `,` with an exhausted input stream stores 0 in the current cell
and the step succeeds (input exhaustion is never a failure); with input
available it stores the next byte (taken mod 256, the identity on
byte values) and consumes it. -/
theorem C9_input (code : List Char) (st : State)
    (hc : code.getD st.codeptr ' ' = ',') :
    (st.input = [] →
      step code st = .ok { st with memory := st.memory.set st.memptr 0,
                                   codeptr := st.codeptr + 1 }) ∧
    (∀ b rest, st.input = b :: rest →
      step code st = .ok { st with memory := st.memory.set st.memptr (b % 256),
                                   input := rest, codeptr := st.codeptr + 1 }) ∧
    (∀ b rest, st.input = b :: rest → b < 256 →
      step code st = .ok { st with memory := st.memory.set st.memptr b,
                                   input := rest, codeptr := st.codeptr + 1 }) := by
  refine ⟨fun hi => step_comma_nil code st hc hi,
    fun b rest hi => step_comma_cons code st b rest hc hi,
    fun b rest hi hb => ?_⟩
  rw [step_comma_cons code st b rest hc hi, Nat.mod_eq_of_lt hb]

/-- Witness for C9: `,` on empty input zeroes the current cell and the
step returns normally. -/
theorem C9_input_witness :
    step [','] ⟨[7], 0, 0, [], [], []⟩ = .ok ⟨[0], 0, 1, [], [], []⟩ :=
  (C9_input [','] ⟨[7], 0, 0, [], [], []⟩ (by decide)).1 rfl

/-- C10: on a program that passes bracket validation, `execute` can
never fail with `UnmatchedOpenBracket` (the forward scan of `[` always
finds its balance-zero position) nor with `UnmatchedCloseBracket`
(`]` is never reached with an empty loop-return stack). -/
theorem C10_no_runtime_bracket_abort (fuel : Nat) (e : Engine) (input : List Nat)
    (hv : validateBrackets e.code = true) (p : Nat) (st' : State) :
    execute fuel e input ≠ .failed (.UnmatchedOpenBracket p) st' ∧
    execute fuel e input ≠ .failed (.UnmatchedCloseBracket p) st' := by
  rw [execute_of_valid fuel e input hv]
  have h := run_inv e.code hv fuel (initState e input) (Inv_init e.code e input)
  exact ⟨h.2.1 p st', h.2.2 p st'⟩

/-- Witness for C10 on the validated program `+[-]`. -/
theorem C10_no_runtime_bracket_abort_witness :
    execute 20 ⟨['+', '[', '-', ']'], [0], 0, 0, []⟩ [] ≠
      .failed (.UnmatchedOpenBracket 1) ⟨[0], 0, 1, [], [], []⟩ :=
  (C10_no_runtime_bracket_abort 20 ⟨['+', '[', '-', ']'], [0], 0, 0, []⟩ []
    (by decide) 1 ⟨[0], 0, 1, [], [], []⟩).1

end Trbbfi
